import Mathlib

/-!
Verification of the CMS hospital-dataset processor (src/process/process.py,
class CMSDataProcessor).

The Python source is shallowly embedded as pure Lean functions.  External
effects (HTTP requests, CSV parsing, file writes) are supplied by a `World`
record of oracles; the per-dataset worker `process_hospital_data` returns a
result value, the updated run metadata, and the list of observable side
effects (network calls, sink writes, metadata updates) in the order they
happen in the source.  Timestamps are the strings the catalog JSON carries;
the source compares them with Python string comparison, embedded here as
lexicographic comparison by code point.
-/

/-- Matches the ASCII characters of Python regex class `\s` (space, tab,
newline, carriage return, vertical tab, form feed), used by
`re.sub(r'[^\w\s]', '', c)` and by `str.strip()` in
`convert_columns_to_snake_case` (process.py line 63). -/
def isPySpace (c : Char) : Bool :=
  c = ' ' || c = '\t' || c = '\n' || c = '\r' || c = '\x0b' || c = '\x0c'

/-- Matches the ASCII characters of Python regex class `\w`
(letters, digits, underscore). -/
def isPyWord (c : Char) : Bool :=
  c.isAlphanum || c = '_'

/-- Characters kept by `re.sub(r'[^\w\s]', '', c)` (process.py line 63):
everything outside `\w` and `\s` is deleted. -/
def keepSnakeChar (c : Char) : Bool :=
  isPyWord c || isPySpace c

/-- Python `str.strip()`: drop leading and trailing whitespace
(process.py line 63). -/
def pyStrip (l : List Char) : List Char :=
  List.rdropWhile isPySpace (List.dropWhile isPySpace l)

/-- Python `str.replace(' ', '_')` applied to one character: every space
character becomes an underscore, all other characters are unchanged
(process.py line 63). -/
def spaceToUnderscore (c : Char) : Char :=
  if c = ' ' then '_' else c

/-- One column name through the body of `convert_columns_to_snake_case`
(process.py line 63):
`re.sub(r'[^\w\s]', '', c).strip().lower().replace(' ', '_')`.
Python `str.lower()` is embedded as `Char.toLower` on each character
(ASCII case mapping). -/
def snakeChars (l : List Char) : List Char :=
  ((pyStrip (l.filter keepSnakeChar)).map Char.toLower).map spaceToUnderscore

/-- String form of `snakeChars`. -/
def snakeStr (s : String) : String :=
  ⟨snakeChars s.data⟩

/-- The method `convert_columns_to_snake_case` (process.py lines 56-63):
the list comprehension applying the normalization to every column name. -/
def convert_columns_to_snake_case (cols : List String) : List String :=
  cols.map snakeStr

/-- CPython `str.lower()` on one character, refined beyond the ASCII case
mapping on the code points this development reasons about: ASCII characters
map through `Char.toLower` (exact), and U+0130 LATIN CAPITAL LETTER I WITH
DOT ABOVE expands to the two characters i followed by U+0307 COMBINING DOT
ABOVE, as the Unicode SpecialCasing table that CPython implements
prescribes.  Lower-casing is therefore one character to possibly several.
Other non-ASCII code points are left unchanged, which is exact for every
code point without a Unicode lower-case mapping (such as U+0307). -/
def pyLowerChar (c : Char) : List Char :=
  if c = 'İ' then ['i', '̇'] else [Char.toLower c]

/-- Python regex class `\w` refined beyond ASCII on the code points this
development evaluates it at: the ASCII word characters, plus U+0130, which
is a letter (category Lu, so `str.isalnum()` is true and `\w` matches);
U+0307 is a combining mark (category Mn), neither alphanumeric nor the
underscore, so `\w` does not match it and `re.sub(r'[^\w\s]', '', c)`
deletes it.  Non-ASCII code points other than U+0130 are not modelled; the
theorems below apply this definition only to ASCII characters and to these
two code points. -/
def isPyWordU (c : Char) : Bool :=
  isPyWord c || c = 'İ'

/-- Characters kept by `re.sub(r'[^\w\s]', '', c)` under the refined word
class (U+0130 and U+0307 are not whitespace, so `isPySpace` is exact on
every code point the refined theorems touch). -/
def keepSnakeCharU (c : Char) : Bool :=
  isPyWordU c || isPySpace c

/-- The per-column normalization of process.py line 63 with the refined
word class and the expanding lower-casing: the same
sub-strip-lower-replace pipeline as `snakeChars`, with `str.lower()`
mapping one character to a list of characters. -/
def snakeCharsU (l : List Char) : List Char :=
  ((pyStrip (l.filter keepSnakeCharU)).flatMap pyLowerChar).map spaceToUnderscore

/-- String form of `snakeCharsU`. -/
def snakeStrU (s : String) : String :=
  ⟨snakeCharsU s.data⟩

/-- CPython string comparison `a <= b`: lexicographic by code point.
This embeds the comparison used at process.py line 154
(`self.previous_runs['processed_files'][dataset_id] >= last_modified`,
whose operands are the strings from the catalog JSON). -/
def pyStrLe : List Char → List Char → Bool
  | [], _ => true
  | _ :: _, [] => false
  | a :: as, b :: bs =>
    if a < b then true
    else if b < a then false
    else pyStrLe as bs

/-- Python `a >= b` on strings. -/
def pyStrGe (a b : String) : Bool :=
  pyStrLe b.data a.data

/-- One entry of a descriptor's `distribution` array: a JSON object that may
or may not carry a `downloadURL` key (process.py line 160). -/
structure Distribution where
  downloadURL : Option String
deriving DecidableEq

/-- A dataset descriptor as `process_hospital_data` reads it: a Python dict.
A field is `none` when the corresponding key is absent from the dict
(`dataset['identifier']` and `dataset['modified']` then raise `KeyError`;
`dataset.get('theme', [])` defaults to the empty list and
`dataset.get('distribution', [{}])` defaults to a one-element list whose
entry has no `downloadURL`). -/
structure Dataset where
  identifier : Option String
  modified : Option String
  theme : List String
  distribution : Option (List Distribution)
deriving DecidableEq

/-- A parsed CSV table (the pandas DataFrame): column names plus rows. -/
structure DataFrame where
  columns : List String
  rows : List (List String)
deriving DecidableEq

/-- The persisted run metadata (process.py lines 44-49):
`last_run` plus the `processed_files` mapping from dataset identifier to the
modification timestamp last synchronized, kept as an association list. -/
structure Metadata where
  last_run : Option String
  processed_files : List (String × String)
deriving DecidableEq

/-- Lookup in the `processed_files` mapping: the combined effect of
`dataset_id in self.previous_runs['processed_files']` (process.py line 153)
and the subscript read on line 154. -/
def lookupTs : List (String × String) → String → Option String
  | [], _ => none
  | (k, v) :: rest, key => if k = key then some v else lookupTs rest key

/-- Python dict assignment
`self.previous_runs['processed_files'][dataset_id] = last_modified`
(process.py line 170) on the association-list embedding. -/
def storeTs : List (String × String) → String → String → List (String × String)
  | [], key, ts => [(key, ts)]
  | (k, v) :: rest, key, ts =>
    if k = key then (key, ts) :: rest else (k, v) :: storeTs rest key ts

/-- Oracles for the external effects the processor performs.
A `none`/`false` answer means the corresponding Python call raised.
For `connect` (process.py lines 76-90): `requests.get` raising makes the
local `response` unbound, so `connect` itself raises `UnboundLocalError`
after logging; a `some text` answer covers every returned response,
including error-status responses that `raise_for_status` flagged (those are
caught, logged, and the bound response is still returned). -/
structure World where
  catalog : Option (List Dataset)
  connect : String → Option String
  parseCsv : String → Option DataFrame
  writeOk : String → Bool

/-- The empty Python dict in the list `[{}]` that `get_hospital_datasets`
returns when its try block raises (process.py line 105). -/
def emptyDict : Dataset :=
  ⟨none, none, [], none⟩

/-- The method `get_hospital_datasets` (process.py lines 92-105): fetch the
catalog, keep the descriptors whose `theme` contains `'Hospitals'`; on any
exception (connection raised, JSON parse failed) log and return `[{}]`.
`World.catalog` is `none` exactly when the try block raises. -/
def get_hospital_datasets (w : World) : List Dataset :=
  match w.catalog with
  | some datasets => datasets.filter (fun d => d.theme.contains "Hospitals")
  | none => [emptyDict]

/-- Observable side effects of one `process_hospital_data` call, in program
order: a download request, a sink write (`df.to_csv`), an in-memory
checkpoint update. -/
inductive Event where
  | netGet (url : String)
  | sinkWrite (id : String)
  | metaUpdate (id : String) (ts : String)
deriving DecidableEq

/-- Which statement of the try block of `process_hospital_data` raised the
exception that its `except` clause caught. -/
inductive FailReason where
  | missingModified
  | indexFirstDistribution
  | connectRaised
  | missingLocator
  | parseFailed
  | writeFailed
deriving DecidableEq

/-- Terminal state of one `process_hospital_data` call that did not itself
raise: the skip path, the caught-exception path, or the success path with
the normalized DataFrame. -/
inductive Outcome where
  | updated (df : DataFrame)
  | skipped
  | failed (r : FailReason)
deriving DecidableEq

/-- What a `process_hospital_data` call does from the caller's point of
view: return normally with an `Outcome`, or raise an uncaught exception
(the `NameError` when the `except` clause reads the never-bound local
`dataset_id`). -/
inductive CallResult where
  | ok (o : Outcome)
  | raisedNameError
deriving DecidableEq

/-- The Python return value of `process_hospital_data` for each outcome:
the DataFrame on the success path, `None` on the skip and failure paths. -/
def pyReturn : Outcome → Option DataFrame
  | .updated df => some df
  | .skipped => none
  | .failed _ => none

/-- Result of one `process_hospital_data` call: the call result, the
in-memory metadata after the call, and the trace of observable effects. -/
structure PResult where
  result : CallResult
  meta : Metadata
  events : List Event
deriving DecidableEq

/-- Body of `process_hospital_data` after the change-detection gate
(process.py lines 159-182): resolve the download URL from
`dataset.get('distribution', [{}])[0].get('downloadURL')`, download, parse,
normalize the columns, write the CSV, then update the checkpoint.  Each
raising statement lands in the `except` clause, which logs and returns
`None` leaving the metadata untouched.  The source gates the request on
the truthiness test `if download_url:`, so both an absent key and an
empty-string URL take the no-request path: the code logs, the local
`response` stays unbound, and `response.text` raises, so the outcome is a
failure with no network call.  An empty `distribution` list makes `[0]`
raise `IndexError`. -/
def fetchAndStore (meta : Metadata) (w : World) (dataset : Dataset)
    (dataset_id : String) (last_modified : String) : PResult :=
  match dataset.distribution with
  | some [] => ⟨.ok (.failed .indexFirstDistribution), meta, []⟩
  | none => ⟨.ok (.failed .missingLocator), meta, []⟩
  | some (d :: _) =>
    match d.downloadURL with
    | none => ⟨.ok (.failed .missingLocator), meta, []⟩
    | some url =>
      if url = "" then ⟨.ok (.failed .missingLocator), meta, []⟩
      else
      match w.connect url with
      | none => ⟨.ok (.failed .connectRaised), meta, [.netGet url]⟩
      | some text =>
        match w.parseCsv text with
        | none => ⟨.ok (.failed .parseFailed), meta, [.netGet url]⟩
        | some df =>
          if w.writeOk dataset_id then
            ⟨.ok (.updated ⟨convert_columns_to_snake_case df.columns, df.rows⟩),
             ⟨meta.last_run, storeTs meta.processed_files dataset_id last_modified⟩,
             [.netGet url, .sinkWrite dataset_id, .metaUpdate dataset_id last_modified]⟩
          else
            ⟨.ok (.failed .writeFailed), meta, [.netGet url, .sinkWrite dataset_id]⟩

/-- The method `process_hospital_data` (process.py lines 136-182).
Reading `dataset['identifier']` on a dict without that key raises
`KeyError`; the `except` clause then evaluates the never-bound local
`dataset_id` and itself raises `NameError`, which propagates to the caller.
A missing `modified` key also raises `KeyError`, but `dataset_id` is bound
by then so the `except` clause returns `None`.  The change-detection gate
(lines 153-157) returns `None` before any download when the recorded
timestamp for the identifier is greater than or equal to `last_modified`
under Python string comparison. -/
def process_hospital_data (meta : Metadata) (w : World) (dataset : Dataset) : PResult :=
  match dataset.identifier with
  | none => ⟨.raisedNameError, meta, []⟩
  | some dataset_id =>
    match dataset.modified with
    | none => ⟨.ok (.failed .missingModified), meta, []⟩
    | some last_modified =>
      match lookupTs meta.processed_files dataset_id with
      | some stored =>
        if pyStrGe stored last_modified then ⟨.ok .skipped, meta, []⟩
        else fetchAndStore meta w dataset dataset_id last_modified
      | none => fetchAndStore meta w dataset dataset_id last_modified

/-- Contents of the metadata file while `save_metadata` (process.py lines
51-54) runs: `open(self.metadata_file, 'w')` truncates the file at once,
then `json.dump` streams the serialization, so after `k` characters have
been emitted the file holds exactly the first `k` characters of the new
serialization, whatever it held before. -/
def saveMetadataFileState (newContent : List Char) (k : Nat) : List Char :=
  newContent.take k

/-- Serialized previous metadata used to exhibit the non-atomicity of
`save_metadata`: a well-formed state with one processed file. -/
def oldMetaSerialized : List Char :=
  "\x7b\"last_run\": \"2024-01-01T00:00:00\", \"processed_files\": \x7b\"A\": \"2024-01-01\"\x7d\x7d".data

/-- Serialized new metadata for the same demonstration. -/
def newMetaSerialized : List Char :=
  "\x7b\"last_run\": \"2024-01-02T00:00:00\", \"processed_files\": \x7b\"A\": \"2024-01-02\"\x7d\x7d".data

/-- World in which every external call succeeds and the downloaded CSV has
the two headers that normalize to the same snake-case name. -/
def collidingWorld : World where
  catalog := some []
  connect := fun _ => some "csvtext"
  parseCsv := fun _ => some ⟨["A B", "A_b"], [["1", "2"]]⟩
  writeOk := fun _ => true

/-- Descriptor whose download yields the colliding headers. -/
def collidingDataset : Dataset :=
  ⟨some "ds1", some "2024-01-02", ["Hospitals"], some [⟨some "http://example/x.csv"⟩]⟩

/-- World whose catalog request raises, for the catalog-failure claims. -/
def catalogDownWorld : World where
  catalog := none
  connect := fun _ => some "csvtext"
  parseCsv := fun _ => some ⟨["h"], []⟩
  writeOk := fun _ => true

/-- Metadata that already records dataset A at timestamp 2024-01-02. -/
def metaWithA : Metadata :=
  ⟨none, [("A", "2024-01-02")]⟩

/-- Descriptor for dataset A, modified 2024-01-02, with a download URL. -/
def datasetA : Dataset :=
  ⟨some "A", some "2024-01-02", ["Hospitals"], some [⟨some "http://example/a.csv"⟩]⟩

/-- Descriptor without a download URL in its first distribution entry. -/
def datasetNoUrl : Dataset :=
  ⟨some "C", some "2024-01-02", ["Hospitals"], some [⟨none⟩]⟩

/-- World where the sink write for any identifier raises. -/
def writeFailWorld : World where
  catalog := some []
  connect := fun _ => some "csvtext"
  parseCsv := fun _ => some ⟨["h"], []⟩
  writeOk := fun _ => false

/-- Case analysis of the worker body: it either fails leaving the metadata
untouched (with no event, only a download event, or a download plus an
attempted sink write), or succeeds having written the sink and then
advanced the checkpoint, in that order. -/
theorem fetchAndStore_spec (meta : Metadata) (w : World) (ds : Dataset)
    (id mod : String) :
    (∃ r, fetchAndStore meta w ds id mod = ⟨.ok (.failed r), meta, []⟩) ∨
    (∃ r url, fetchAndStore meta w ds id mod = ⟨.ok (.failed r), meta, [.netGet url]⟩) ∨
    (∃ url, fetchAndStore meta w ds id mod =
       ⟨.ok (.failed .writeFailed), meta, [.netGet url, .sinkWrite id]⟩) ∨
    (∃ df url, fetchAndStore meta w ds id mod =
       ⟨.ok (.updated df), ⟨meta.last_run, storeTs meta.processed_files id mod⟩,
        [.netGet url, .sinkWrite id, .metaUpdate id mod]⟩) := by
  unfold fetchAndStore
  split
  · exact Or.inl ⟨_, rfl⟩
  · exact Or.inl ⟨_, rfl⟩
  · split
    · exact Or.inl ⟨_, rfl⟩
    · split
      · exact Or.inl ⟨_, rfl⟩
      · split
        · exact Or.inr (Or.inl ⟨_, _, rfl⟩)
        · split
          · exact Or.inr (Or.inl ⟨_, _, rfl⟩)
          · split
            · exact Or.inr (Or.inr (Or.inr ⟨_, _, rfl⟩))
            · exact Or.inr (Or.inr (Or.inl ⟨_, rfl⟩))

/-- Case analysis of `process_hospital_data`: the uncaught `NameError` on a
missing identifier, the caught `KeyError` on a missing modified timestamp,
the skip path, or a hand-off to the worker body. -/
theorem process_hospital_data_spec (meta : Metadata) (w : World) (ds : Dataset) :
    process_hospital_data meta w ds = ⟨.raisedNameError, meta, []⟩ ∨
    process_hospital_data meta w ds = ⟨.ok (.failed .missingModified), meta, []⟩ ∨
    process_hospital_data meta w ds = ⟨.ok .skipped, meta, []⟩ ∨
    (∃ id mod, ds.identifier = some id ∧ ds.modified = some mod ∧
      process_hospital_data meta w ds = fetchAndStore meta w ds id mod) := by
  unfold process_hospital_data
  split
  · exact Or.inl rfl
  next id hid =>
    split
    · exact Or.inr (Or.inl rfl)
    next mod hmod =>
      split
      · split
        · exact Or.inr (Or.inr (Or.inl rfl))
        · exact Or.inr (Or.inr (Or.inr ⟨id, mod, hid, hmod, rfl⟩))
      · exact Or.inr (Or.inr (Or.inr ⟨id, mod, hid, hmod, rfl⟩))

/-- A dict assignment makes the assigned key map to the assigned value. -/
theorem lookupTs_storeTs (l : List (String × String)) (k v : String) :
    lookupTs (storeTs l k v) k = some v := by
  induction l with
  | nil => simp [storeTs, lookupTs]
  | cons p rest ih =>
    rcases p with ⟨k1, v1⟩
    by_cases h : k1 = k
    · simp [storeTs, lookupTs, h]
    · simp [storeTs, lookupTs, h, ih]

/-- C1: when the processed-files mapping records for the descriptor's
identifier a timestamp greater than or equal to the descriptor's modified
timestamp (Python string comparison, the equal tie included), the call
returns the skip outcome before any download: the metadata is unchanged,
the event trace is empty (in particular zero network calls), and the
Python return value is None. -/
theorem C1_skip_gate_no_network (meta : Metadata) (w : World) (ds : Dataset)
    (id mod stored : String)
    (hid : ds.identifier = some id)
    (hmod : ds.modified = some mod)
    (hrec : lookupTs meta.processed_files id = some stored)
    (hge : pyStrGe stored mod = true) :
    process_hospital_data meta w ds = ⟨.ok .skipped, meta, []⟩ ∧
    pyReturn Outcome.skipped = none := by
  refine ⟨?_, rfl⟩
  unfold process_hospital_data
  rw [hid, hmod]
  simp [hrec, hge]

/-- Witness for C1 at the equal-timestamp tie: dataset A modified
2024-01-02 with the same recorded checkpoint is skipped with no events. -/
theorem C1_skip_gate_no_network_witness :
    lookupTs metaWithA.processed_files "A" = some "2024-01-02" ∧
    pyStrGe "2024-01-02" "2024-01-02" = true ∧
    process_hospital_data metaWithA collidingWorld datasetA = ⟨.ok .skipped, metaWithA, []⟩ :=
  ⟨by decide, by decide,
   (C1_skip_gate_no_network metaWithA collidingWorld datasetA "A" "2024-01-02" "2024-01-02"
      rfl rfl (by decide) (by decide)).1⟩

/-- C3: whenever the call returns a caught-failure outcome (any exception
during fetch, parse, normalize, or write), the in-memory metadata after the
call is exactly the metadata before it: the failure path never advances or
creates the identifier's checkpoint. -/
theorem C3_failed_checkpoint_unchanged (meta : Metadata) (w : World) (ds : Dataset)
    (r : FailReason)
    (hres : (process_hospital_data meta w ds).result = .ok (.failed r)) :
    (process_hospital_data meta w ds).meta = meta := by
  rcases process_hospital_data_spec meta w ds with h | h | h | ⟨id, mod, hid, hmod, h⟩
  · rw [h]
  · rw [h]
  · rw [h]
  · rw [h] at hres ⊢
    rcases fetchAndStore_spec meta w ds id mod with ⟨r1, he⟩ | ⟨r1, url, he⟩ | ⟨url, he⟩ |
      ⟨df, url, he⟩
    · rw [he]
    · rw [he]
    · rw [he]
    · rw [he] at hres
      simp at hres

/-- Witness for C3: a run whose sink write raises leaves the metadata
untouched. -/
theorem C3_failed_checkpoint_unchanged_witness :
    (process_hospital_data ⟨none, []⟩ writeFailWorld datasetA).result =
      .ok (.failed .writeFailed) ∧
    (process_hospital_data ⟨none, []⟩ writeFailWorld datasetA).meta = ⟨none, []⟩ :=
  ⟨by decide,
   C3_failed_checkpoint_unchanged ⟨none, []⟩ writeFailWorld datasetA .writeFailed (by decide)⟩

/-- C4: the claim that the metadata flush is atomic fails on the code:
`save_metadata` truncates the metadata file in place and streams the new
serialization into it, so immediately after the truncating open (zero
characters written) the file is neither the complete previous state nor the
complete new state. -/
theorem C4_flush_not_atomic_counterexample :
    saveMetadataFileState newMetaSerialized 0 ≠ oldMetaSerialized ∧
    saveMetadataFileState newMetaSerialized 0 ≠ newMetaSerialized := by
  constructor
  · decide
  · decide

/-- C5: when the catalog request or its JSON parsing raises, the failure is
not propagated to the caller: `get_hospital_datasets` swallows it and
returns the degenerate one-element list holding an empty dict, and the run
then proceeds to hand that dict to the worker, which raises `NameError`
rather than reporting a run-level catalog error. -/
theorem C5_catalog_failure_swallowed (w : World) (h : w.catalog = none) :
    get_hospital_datasets w = [emptyDict] ∧
    (process_hospital_data ⟨none, []⟩ w emptyDict).result = .raisedNameError := by
  constructor
  · unfold get_hospital_datasets
    rw [h]
  · rfl

/-- Witness for C5 at a concrete world whose catalog request raises. -/
theorem C5_catalog_failure_swallowed_witness :
    get_hospital_datasets catalogDownWorld = [emptyDict] :=
  (C5_catalog_failure_swallowed catalogDownWorld rfl).1

/-- C10: on a descriptor dict lacking the identifier key (such as the empty
dict produced after a listing failure), `process_hospital_data` raises
instead of returning an outcome: the `KeyError` lands in the `except`
clause, which reads the never-bound local `dataset_id` and raises
`NameError`, so the per-dataset failure-isolation contract does not hold. -/
theorem C10_missing_identifier_raises (meta : Metadata) (w : World) (ds : Dataset)
    (h : ds.identifier = none) :
    process_hospital_data meta w ds = ⟨.raisedNameError, meta, []⟩ ∧
    ∀ o : Outcome, (process_hospital_data meta w ds).result ≠ .ok o := by
  have heq : process_hospital_data meta w ds = ⟨.raisedNameError, meta, []⟩ := by
    unfold process_hospital_data
    rw [h]
  refine ⟨heq, ?_⟩
  rw [heq]
  intro o hc
  cases hc

/-- Witness for C10: the empty dict returned by a failed catalog listing
makes the worker raise. -/
theorem C10_missing_identifier_raises_witness :
    get_hospital_datasets catalogDownWorld = [emptyDict] ∧
    emptyDict.identifier = none ∧
    process_hospital_data ⟨none, []⟩ catalogDownWorld emptyDict =
      ⟨.raisedNameError, ⟨none, []⟩, []⟩ :=
  ⟨rfl, rfl,
   (C10_missing_identifier_raises ⟨none, []⟩ catalogDownWorld emptyDict rfl).1⟩

/-- C2: whenever the call returns the updated outcome, the processed-files
entry for the descriptor's identifier afterwards equals the descriptor's
modified timestamp, and the event trace is exactly a download, then the
sink write, then the in-memory checkpoint update: the write completes
before the metadata claims success. -/
theorem C2_checkpoint_after_sink_write (meta : Metadata) (w : World) (ds : Dataset)
    (id mod : String) (df : DataFrame)
    (hid : ds.identifier = some id)
    (hmod : ds.modified = some mod)
    (hres : (process_hospital_data meta w ds).result = .ok (.updated df)) :
    lookupTs (process_hospital_data meta w ds).meta.processed_files id = some mod ∧
    ∃ url, (process_hospital_data meta w ds).events =
      [.netGet url, .sinkWrite id, .metaUpdate id mod] := by
  rcases process_hospital_data_spec meta w ds with h | h | h | ⟨id1, mod1, hid1, hmod1, h⟩
  · rw [h] at hres
    simp at hres
  · rw [h] at hres
    simp at hres
  · rw [h] at hres
    simp at hres
  · rw [hid1] at hid
    rw [hmod1] at hmod
    cases hid
    cases hmod
    rw [h] at hres ⊢
    rcases fetchAndStore_spec meta w ds id mod with ⟨r1, he⟩ | ⟨r1, url, he⟩ | ⟨url, he⟩ |
      ⟨df1, url, he⟩
    · rw [he] at hres
      simp at hres
    · rw [he] at hres
      simp at hres
    · rw [he] at hres
      simp at hres
    · rw [he]
      exact ⟨lookupTs_storeTs meta.processed_files id mod, url, rfl⟩

/-- Witness for C2: a successful update of dataset ds1 records its modified
timestamp and shows the write-then-update event order. -/
theorem C2_checkpoint_after_sink_write_witness :
    lookupTs (process_hospital_data ⟨none, []⟩ collidingWorld collidingDataset).meta.processed_files
      "ds1" = some "2024-01-02" ∧
    ∃ url, (process_hospital_data ⟨none, []⟩ collidingWorld collidingDataset).events =
      [.netGet url, .sinkWrite "ds1", .metaUpdate "ds1" "2024-01-02"] :=
  C2_checkpoint_after_sink_write ⟨none, []⟩ collidingWorld collidingDataset
    "ds1" "2024-01-02" ⟨["a_b", "a_b"], [["1", "2"]]⟩ rfl rfl (by decide)

/-- C8: on a descriptor whose resolved download locator is absent (either no
distribution key, or a first distribution entry without a downloadURL), and
whose identifier has no recorded checkpoint, the outcome is the
missing-locator failure, the event trace is empty (no network call), and
the identifier's checkpoint is still absent afterwards. -/
theorem C8_missing_locator_failure (meta : Metadata) (w : World) (ds : Dataset)
    (id mod : String)
    (hid : ds.identifier = some id)
    (hmod : ds.modified = some mod)
    (habsent : lookupTs meta.processed_files id = none)
    (hnourl : ds.distribution = none ∨
      ∃ d rest, ds.distribution = some (d :: rest) ∧ d.downloadURL = none) :
    process_hospital_data meta w ds = ⟨.ok (.failed .missingLocator), meta, []⟩ ∧
    lookupTs (process_hospital_data meta w ds).meta.processed_files id = none := by
  have heq : process_hospital_data meta w ds = fetchAndStore meta w ds id mod := by
    unfold process_hospital_data
    rw [hid, hmod]
    simp [habsent]
  have hfetch : fetchAndStore meta w ds id mod = ⟨.ok (.failed .missingLocator), meta, []⟩ := by
    rcases hnourl with h | ⟨d, rest, h1, h2⟩
    · unfold fetchAndStore
      rw [h]
    · unfold fetchAndStore
      rw [h1]
      simp [h2]
  rw [heq, hfetch]
  exact ⟨rfl, habsent⟩

/-- Witness for C8: descriptor C with an empty downloadURL entry fails with
no events and leaves the empty metadata empty. -/
theorem C8_missing_locator_failure_witness :
    process_hospital_data ⟨none, []⟩ collidingWorld datasetNoUrl =
      ⟨.ok (.failed .missingLocator), ⟨none, []⟩, []⟩ ∧
    lookupTs (process_hospital_data ⟨none, []⟩ collidingWorld datasetNoUrl).meta.processed_files
      "C" = none :=
  C8_missing_locator_failure ⟨none, []⟩ collidingWorld datasetNoUrl "C" "2024-01-02"
    rfl rfl rfl (Or.inr ⟨⟨none⟩, [], rfl, rfl⟩)

/-- Packing a valid code point and reading it back is the identity. -/
theorem toNat_ofNat_valid (n : Nat) (h : n.isValidChar) : (Char.ofNat n).toNat = n := by
  rw [Char.ofNat, dif_pos h]
  simp [Char.ofNatAux, Char.toNat, UInt32.toNat]

/-- Code point of the lowercased character: plus 32 on the basic latin
upper-case range, unchanged elsewhere. -/
theorem toNat_toLower (c : Char) :
    (Char.toLower c).toNat =
      if 65 ≤ c.toNat ∧ c.toNat ≤ 90 then c.toNat + 32 else c.toNat := by
  unfold Char.toLower
  by_cases h : 65 ≤ c.toNat ∧ c.toNat ≤ 90
  · rw [if_pos, if_pos h]
    · exact toNat_ofNat_valid _ (Or.inl (by omega))
    · exact ⟨h.1, h.2⟩
  · rw [if_neg, if_neg h]
    exact fun hc => h ⟨hc.1, hc.2⟩

/-- Lowercasing characters outside the basic latin upper-case range is the
identity. -/
theorem toLower_eq_self {c : Char} (h : ¬(65 ≤ c.toNat ∧ c.toNat ≤ 90)) :
    Char.toLower c = c := by
  unfold Char.toLower
  rw [if_neg]
  exact fun hc => h ⟨hc.1, hc.2⟩

/-- Lowercasing is idempotent. -/
theorem toLower_idem (c : Char) : Char.toLower (Char.toLower c) = Char.toLower c := by
  by_cases h : 65 ≤ c.toNat ∧ c.toNat ≤ 90
  · have h1 : (Char.toLower c).toNat = c.toNat + 32 := by
      rw [toNat_toLower, if_pos h]
    apply toLower_eq_self
    rw [h1]
    omega
  · rw [toLower_eq_self h]
    exact toLower_eq_self h

/-- A character equals the packing of its known code point. -/
theorem char_eq_of_toNat {c : Char} {n : Nat} (h : c.toNat = n) : c = Char.ofNat n := by
  rw [← h, Char.ofNat_toNat]

/-- Code points of the whitespace class. -/
theorem isPySpace_toNat {c : Char} (h : isPySpace c = true) :
    c.toNat = 32 ∨ c.toNat = 9 ∨ c.toNat = 10 ∨ c.toNat = 13 ∨
    c.toNat = 11 ∨ c.toNat = 12 := by
  simp only [isPySpace, Bool.or_eq_true, decide_eq_true_eq] at h
  rcases h with ((((h | h) | h) | h) | h) | h <;> subst h <;> decide

/-- Code-point ranges of the word class. -/
theorem isPyWord_toNat {c : Char} (h : isPyWord c = true) :
    (65 ≤ c.toNat ∧ c.toNat ≤ 90) ∨ (97 ≤ c.toNat ∧ c.toNat ≤ 122) ∨
    (48 ≤ c.toNat ∧ c.toNat ≤ 57) ∨ c.toNat = 95 := by
  simp only [isPyWord, Char.isAlphanum, Char.isAlpha, Char.isUpper, Char.isLower,
    Char.isDigit, Bool.or_eq_true, Bool.and_eq_true, decide_eq_true_eq] at h
  rcases h with ((⟨h1, h2⟩ | ⟨h1, h2⟩) | ⟨h1, h2⟩) | h
  · exact Or.inl ⟨h1, h2⟩
  · exact Or.inr (Or.inl ⟨h1, h2⟩)
  · exact Or.inr (Or.inr (Or.inl ⟨h1, h2⟩))
  · subst h
    exact Or.inr (Or.inr (Or.inr (by decide)))

/-- A character whose code point is in the lower-case letter range is a
word character. -/
theorem isPyWord_of_lower_range {c : Char} (h : 97 ≤ c.toNat ∧ c.toNat ≤ 122) :
    isPyWord c = true := by
  simp only [isPyWord, Char.isAlphanum, Char.isAlpha, Char.isUpper, Char.isLower,
    Char.isDigit, Bool.or_eq_true, Bool.and_eq_true, decide_eq_true_eq]
  exact Or.inl (Or.inl (Or.inr ⟨h.1, h.2⟩))

/-- Word characters are not whitespace. -/
theorem isPyWord_not_space {c : Char} (h : isPyWord c = true) : isPySpace c = false := by
  cases hs : isPySpace c
  · rfl
  · rcases isPyWord_toNat h with h1 | h1 | h1 | h1 <;>
      rcases isPySpace_toNat hs with h2 | h2 | h2 | h2 | h2 | h2 <;> omega

/-- Word characters are not the space character. -/
theorem isPyWord_ne_space {c : Char} (h : isPyWord c = true) : c ≠ ' ' := by
  intro he
  subst he
  cases h

/-- Lowercasing a whitespace character is the identity. -/
theorem toLower_space {c : Char} (h : isPySpace c = true) : Char.toLower c = c := by
  apply toLower_eq_self
  rcases isPySpace_toNat h with h1 | h1 | h1 | h1 | h1 | h1 <;> omega

/-- Lowercasing preserves whether a character is whitespace. -/
theorem isPySpace_toLower (c : Char) : isPySpace (Char.toLower c) = isPySpace c := by
  by_cases h : 65 ≤ c.toNat ∧ c.toNat ≤ 90
  · have h1 : (Char.toLower c).toNat = c.toNat + 32 := by
      rw [toNat_toLower, if_pos h]
    have h2 : isPySpace c = false := by
      cases hc : isPySpace c
      · rfl
      · rcases isPySpace_toNat hc with h3 | h3 | h3 | h3 | h3 | h3 <;> omega
    have h4 : isPySpace (Char.toLower c) = false := by
      cases hc : isPySpace (Char.toLower c)
      · rfl
      · rcases isPySpace_toNat hc with h3 | h3 | h3 | h3 | h3 | h3 <;> omega
    rw [h2, h4]
  · rw [toLower_eq_self h]

/-- Lowercasing preserves word characters. -/
theorem isPyWord_toLower {c : Char} (h : isPyWord c = true) :
    isPyWord (Char.toLower c) = true := by
  by_cases hu : 65 ≤ c.toNat ∧ c.toNat ≤ 90
  · have h1 : (Char.toLower c).toNat = c.toNat + 32 := by
      rw [toNat_toLower, if_pos hu]
    exact isPyWord_of_lower_range (by omega)
  · rw [toLower_eq_self hu]
    exact h

/-- Replacing spaces by underscores never yields a space. -/
theorem s2u_ne_space (c : Char) : spaceToUnderscore c ≠ ' ' := by
  unfold spaceToUnderscore
  by_cases h : c = ' '
  · rw [if_pos h]
    decide
  · rw [if_neg h]
    exact h

/-- The space-to-underscore replacement is idempotent. -/
theorem s2u_s2u (c : Char) :
    spaceToUnderscore (spaceToUnderscore c) = spaceToUnderscore c := by
  by_cases h : c = ' '
  · subst h
    decide
  · have h1 : spaceToUnderscore c = c := by
      unfold spaceToUnderscore
      rw [if_neg h]
    rw [h1]
    exact h1

/-- The composite per-character normalization is fixed by lowercasing. -/
theorem toLower_s2u_toLower (c : Char) :
    Char.toLower (spaceToUnderscore (Char.toLower c)) =
      spaceToUnderscore (Char.toLower c) := by
  by_cases h : Char.toLower c = ' '
  · rw [h]
    decide
  · unfold spaceToUnderscore
    rw [if_neg h, toLower_idem]

/-- The composite per-character normalization stays in the kept class. -/
theorem keep_s2u_toLower {c : Char} (h : keepSnakeChar c = true) :
    keepSnakeChar (spaceToUnderscore (Char.toLower c)) = true := by
  have h2 : (isPyWord c || isPySpace c) = true := h
  have h3 : isPyWord c = true ∨ isPySpace c = true := by simpa using h2
  rcases h3 with hw | hs
  · have hw1 : isPyWord (Char.toLower c) = true := isPyWord_toLower hw
    unfold spaceToUnderscore
    rw [if_neg (isPyWord_ne_space hw1)]
    simp [keepSnakeChar, hw1]
  · rw [toLower_space hs]
    by_cases he : c = ' '
    · subst he
      decide
    · unfold spaceToUnderscore
      rw [if_neg he]
      simp [keepSnakeChar, hs]

/-- The composite per-character normalization of a kept non-space character
is not whitespace. -/
theorem s2u_toLower_not_space {c : Char} (hs : isPySpace c = false) :
    isPySpace (spaceToUnderscore (Char.toLower c)) = false := by
  have h1 : isPySpace (Char.toLower c) = false := by
    rw [isPySpace_toLower, hs]
  have h2 : Char.toLower c ≠ ' ' := by
    intro he
    rw [he] at h1
    cases h1
  unfold spaceToUnderscore
  rw [if_neg h2]
  exact h1

/-- Mapping a function that fixes every member is the identity. -/
theorem map_id_of_mem {α : Type} {f : α → α} {l : List α} (h : ∀ a ∈ l, f a = a) :
    l.map f = l := by
  rw [List.map_congr_left h, List.map_id']

/-- Head of an append with a nonempty left part. -/
theorem head?_append_left {α : Type} {l : List α} (t : List α) (h : l ≠ []) :
    (l ++ t).head? = l.head? := by
  cases l with
  | nil => exact absurd rfl h
  | cons a as => rfl

/-- Last element of an append with a nonempty right part. -/
theorem getLast?_append_right {α : Type} (l : List α) {t : List α} (h : t ≠ []) :
    (l ++ t).getLast? = t.getLast? := by
  rw [← List.head?_reverse, ← List.head?_reverse, List.reverse_append]
  exact head?_append_left l.reverse (by simpa using h)

/-- The head given by head? is a member. -/
theorem mem_of_head? {α : Type} {l : List α} {c : α} (h : l.head? = some c) : c ∈ l := by
  cases l with
  | nil => cases h
  | cons a as =>
    injection h with h
    subst h
    exact List.mem_cons_self a as

/-- Stripping keeps only members of the original list. -/
theorem mem_pyStrip {c : Char} {l : List Char} (h : c ∈ pyStrip l) : c ∈ l := by
  unfold pyStrip List.rdropWhile at h
  rw [List.mem_reverse] at h
  have h1 := (List.dropWhile_suffix isPySpace).subset h
  rw [List.mem_reverse] at h1
  exact (List.dropWhile_suffix isPySpace).subset h1

/-- Stripping a list whose two ends are not whitespace is the identity. -/
theorem pyStrip_eq_self {l : List Char}
    (h1 : ∀ c, l.head? = some c → isPySpace c = false)
    (h2 : ∀ c, l.getLast? = some c → isPySpace c = false) :
    pyStrip l = l := by
  unfold pyStrip
  have hd : List.dropWhile isPySpace l = l := by
    cases l with
    | nil => rfl
    | cons a as =>
      rw [List.dropWhile_cons, if_neg (by simp [h1 a rfl])]
  rw [hd, List.rdropWhile_eq_self_iff]
  intro hl
  have h3 := h2 (l.getLast hl) (List.getLast?_eq_getLast l hl)
  simp [h3]

/-- The head of a stripped list is not whitespace. -/
theorem pyStrip_head_not_space {l : List Char} {c : Char}
    (h : (pyStrip l).head? = some c) : isPySpace c = false := by
  unfold pyStrip at h
  obtain ⟨t, ht⟩ := List.rdropWhile_prefix isPySpace (List.dropWhile isPySpace l)
  have hne : List.rdropWhile isPySpace (List.dropWhile isPySpace l) ≠ [] := by
    intro he
    rw [he] at h
    cases h
  have hh : (List.dropWhile isPySpace l).head? = some c := by
    rw [← ht, head?_append_left t hne]
    exact h
  have hne2 : List.dropWhile isPySpace l ≠ [] := by
    intro he
    rw [he] at hh
    cases hh
  have h5 := List.head_dropWhile_not isPySpace l hne2
  have h6 : (List.dropWhile isPySpace l).head hne2 = c := by
    have h7 := List.head?_eq_head hne2
    rw [h7] at hh
    injection hh
  rw [h6] at h5
  exact h5

/-- The last element of a stripped list is not whitespace. -/
theorem pyStrip_getLast_not_space {l : List Char} {c : Char}
    (h : (pyStrip l).getLast? = some c) : isPySpace c = false := by
  unfold pyStrip at h
  have hne : List.rdropWhile isPySpace (List.dropWhile isPySpace l) ≠ [] := by
    intro he
    rw [he] at h
    cases h
  have h5 := List.rdropWhile_last_not isPySpace (List.dropWhile isPySpace l) hne
  have h6 : (List.rdropWhile isPySpace (List.dropWhile isPySpace l)).getLast hne = c := by
    have h7 := List.getLast?_eq_getLast
      (List.rdropWhile isPySpace (List.dropWhile isPySpace l)) hne
    rw [h7] at h
    injection h
  rw [h6] at h5
  simpa using h5

/-- Every character of a normalized column name is the composite
per-character normalization of a kept character of the input. -/
theorem mem_snakeChars {c : Char} {l : List Char} (h : c ∈ snakeChars l) :
    ∃ c0, c0 ∈ pyStrip (l.filter keepSnakeChar) ∧
      c = spaceToUnderscore (Char.toLower c0) := by
  unfold snakeChars at h
  rw [List.mem_map] at h
  obtain ⟨c1, hc1, he1⟩ := h
  rw [List.mem_map] at hc1
  obtain ⟨c0, hc0, he0⟩ := hc1
  exact ⟨c0, hc0, by rw [← he1, ← he0]⟩

/-- The head of a normalized column name comes from the head of the
stripped kept input. -/
theorem snakeChars_head {l : List Char} {c : Char}
    (h : (snakeChars l).head? = some c) :
    ∃ c0, (pyStrip (l.filter keepSnakeChar)).head? = some c0 ∧
      c = spaceToUnderscore (Char.toLower c0) := by
  unfold snakeChars at h
  rw [List.head?_map, List.head?_map] at h
  cases hm : (pyStrip (l.filter keepSnakeChar)).head? with
  | none =>
    rw [hm] at h
    cases h
  | some c0 =>
    rw [hm] at h
    simp only [Option.map_some'] at h
    injection h with h
    exact ⟨c0, rfl, h.symm⟩

/-- The last character of a normalized column name comes from the last
character of the stripped kept input. -/
theorem snakeChars_getLast {l : List Char} {c : Char}
    (h : (snakeChars l).getLast? = some c) :
    ∃ c0, (pyStrip (l.filter keepSnakeChar)).getLast? = some c0 ∧
      c = spaceToUnderscore (Char.toLower c0) := by
  unfold snakeChars at h
  rw [List.getLast?_map, List.getLast?_map] at h
  cases hm : (pyStrip (l.filter keepSnakeChar)).getLast? with
  | none =>
    rw [hm] at h
    cases h
  | some c0 =>
    rw [hm] at h
    simp only [Option.map_some'] at h
    injection h with h
    exact ⟨c0, rfl, h.symm⟩

/-- The column-name normalization is idempotent on character lists. -/
theorem snakeChars_idem (l : List Char) : snakeChars (snakeChars l) = snakeChars l := by
  have hfil : (snakeChars l).filter keepSnakeChar = snakeChars l := by
    rw [List.filter_eq_self]
    intro c hc
    obtain ⟨c0, hc0, he⟩ := mem_snakeChars hc
    have hkeep : keepSnakeChar c0 = true := (List.mem_filter.mp (mem_pyStrip hc0)).2
    rw [he]
    exact keep_s2u_toLower hkeep
  have hstrip : pyStrip (snakeChars l) = snakeChars l := by
    apply pyStrip_eq_self
    · intro c hc
      obtain ⟨c0, hc0, he⟩ := snakeChars_head hc
      rw [he]
      exact s2u_toLower_not_space (pyStrip_head_not_space hc0)
    · intro c hc
      obtain ⟨c0, hc0, he⟩ := snakeChars_getLast hc
      rw [he]
      exact s2u_toLower_not_space (pyStrip_getLast_not_space hc0)
  have hlower : (snakeChars l).map Char.toLower = snakeChars l := by
    apply map_id_of_mem
    intro c hc
    obtain ⟨c0, hc0, he⟩ := mem_snakeChars hc
    rw [he]
    exact toLower_s2u_toLower c0
  have hs2u : (snakeChars l).map spaceToUnderscore = snakeChars l := by
    apply map_id_of_mem
    intro c hc
    obtain ⟨c0, hc0, he⟩ := mem_snakeChars hc
    rw [he]
    exact s2u_s2u (Char.toLower c0)
  show ((pyStrip ((snakeChars l).filter keepSnakeChar)).map Char.toLower).map
    spaceToUnderscore = snakeChars l
  rw [hfil, hstrip, hlower, hs2u]

/-- C6 counterexample: the normalizer does not collapse an internal
whitespace run to a single underscore; two adjacent spaces become two
underscores, refuting the claimed output for the input with a double
space. -/
theorem C6_collapse_counterexample :
    snakeStr "a  b" = "a__b" ∧ snakeStr "a  b" ≠ "a_b" := by
  constructor
  · decide
  · decide

/-- C6 (amended): the normalizer strips characters outside letters, digits,
underscore and whitespace, trims both ends, lowercases, and replaces each
space character with one underscore, so a run of n spaces becomes n
underscores; in particular the raw header Facility Name number-sign one
normalizes to facility_name_1.  Stated for inputs of the form
word-characters, a space run, word-characters (already lowercase), which
isolates the per-space replacement. -/
theorem C6_per_space_normalization (a b : List Char) (n : Nat)
    (ha : ∀ c ∈ a, isPyWord c = true ∧ Char.toLower c = c)
    (hb : ∀ c ∈ b, isPyWord c = true ∧ Char.toLower c = c)
    (hane : a ≠ []) (hbne : b ≠ []) :
    snakeStr "Facility Name #1" = "facility_name_1" ∧
    snakeChars (a ++ List.replicate n ' ' ++ b) = a ++ List.replicate n '_' ++ b := by
  constructor
  · decide
  · have hfil : (a ++ List.replicate n ' ' ++ b).filter keepSnakeChar =
        a ++ List.replicate n ' ' ++ b := by
      rw [List.filter_eq_self]
      intro c hc
      rcases List.mem_append.mp hc with hc1 | hc1
      · rcases List.mem_append.mp hc1 with hc2 | hc2
        · simp [keepSnakeChar, (ha c hc2).1]
        · have he : c = ' ' := List.eq_of_mem_replicate hc2
          subst he
          decide
      · simp [keepSnakeChar, (hb c hc1).1]
    have hstrip : pyStrip (a ++ List.replicate n ' ' ++ b) =
        a ++ List.replicate n ' ' ++ b := by
      apply pyStrip_eq_self
      · intro c hc
        rw [head?_append_left b (by simp [hane]), head?_append_left (List.replicate n ' ') hane]
          at hc
        exact isPyWord_not_space (ha c (mem_of_head? hc)).1
      · intro c hc
        rw [getLast?_append_right (a ++ List.replicate n ' ') hbne] at hc
        have hcb : c ∈ b := by
          have h7 := List.getLast?_eq_getLast b hbne
          rw [h7] at hc
          injection hc with hc
          rw [← hc]
          exact List.getLast_mem hbne
        exact isPyWord_not_space (hb c hcb).1
    have hlower : (a ++ List.replicate n ' ' ++ b).map Char.toLower =
        a ++ List.replicate n ' ' ++ b := by
      apply map_id_of_mem
      intro c hc
      rcases List.mem_append.mp hc with hc1 | hc1
      · rcases List.mem_append.mp hc1 with hc2 | hc2
        · exact (ha c hc2).2
        · have he : c = ' ' := List.eq_of_mem_replicate hc2
          subst he
          decide
      · exact (hb c hc1).2
    have hs2u : (a ++ List.replicate n ' ' ++ b).map spaceToUnderscore =
        a ++ List.replicate n '_' ++ b := by
      rw [List.map_append, List.map_append, List.map_replicate]
      have hsp : spaceToUnderscore ' ' = '_' := by decide
      rw [hsp]
      rw [map_id_of_mem (fun c hc => by
        unfold spaceToUnderscore
        rw [if_neg (isPyWord_ne_space (ha c hc).1)])]
      rw [map_id_of_mem (fun c hc => by
        unfold spaceToUnderscore
        rw [if_neg (isPyWord_ne_space (hb c hc).1)])]
    show ((pyStrip ((a ++ List.replicate n ' ' ++ b).filter keepSnakeChar)).map
      Char.toLower).map spaceToUnderscore = a ++ List.replicate n '_' ++ b
    rw [hfil, hstrip, hlower, hs2u]

/-- Witness for C6 (amended): one letter, two spaces, one letter turns into
letter, two underscores, letter. -/
theorem C6_per_space_normalization_witness :
    snakeStr "Facility Name #1" = "facility_name_1" ∧
    snakeChars (['a'] ++ List.replicate 2 ' ' ++ ['b']) =
      ['a'] ++ List.replicate 2 '_' ++ ['b'] :=
  C6_per_space_normalization ['a'] ['b'] 2 (by decide) (by decide) (by decide) (by decide)

/-- C9: the claim that a header-normalization collision is detected and the
dataset failed does not hold of the code: the two distinct raw headers of
the downloaded table normalize to the same canonical name, yet the call
returns the updated outcome with both duplicate columns kept side by side
and advances the checkpoint; no collision check exists on the path. -/
theorem C9_collision_silently_accepted :
    snakeStr "A B" = "a_b" ∧ snakeStr "A_b" = "a_b" ∧
    process_hospital_data ⟨none, []⟩ collidingWorld collidingDataset =
      ⟨.ok (.updated ⟨["a_b", "a_b"], [["1", "2"]]⟩),
       ⟨none, [("ds1", "2024-01-02")]⟩,
       [.netGet "http://example/x.csv", .sinkWrite "ds1",
        .metaUpdate "ds1" "2024-01-02"]⟩ := by
  refine ⟨by decide, by decide, by decide⟩

/-- A flat map whose values are singletons is a map. -/
theorem flatMap_eq_map_of_singleton {α β : Type} {f : α → List β} {g : α → β}
    {l : List α} (h : ∀ a ∈ l, f a = [g a]) : l.flatMap f = l.map g := by
  induction l with
  | nil => rfl
  | cons a as ih =>
    rw [List.flatMap_cons, List.map_cons, h a (List.mem_cons_self a as),
      ih (fun b hb => h b (List.mem_cons_of_mem a hb))]
    rfl

/-- On headers made of ASCII characters the refined normalization and the
ASCII normalization coincide: no ASCII character is U+0130, so the word
classes agree and the lower-casing never expands. -/
theorem snakeCharsU_eq_snakeChars {l : List Char} (h : ∀ c ∈ l, c.toNat < 128) :
    snakeCharsU l = snakeChars l := by
  unfold snakeCharsU snakeChars
  have hfil : l.filter keepSnakeCharU = l.filter keepSnakeChar := by
    apply List.filter_congr
    intro c hc
    have hne : c ≠ 'İ' := by
      intro he
      subst he
      exact absurd (h _ hc) (by decide)
    unfold keepSnakeCharU keepSnakeChar isPyWordU
    simp [hne]
  rw [hfil]
  have hmap : (pyStrip (l.filter keepSnakeChar)).flatMap pyLowerChar =
      (pyStrip (l.filter keepSnakeChar)).map Char.toLower := by
    apply flatMap_eq_map_of_singleton
    intro c hc
    have hcl : c ∈ l := (List.mem_filter.mp (mem_pyStrip hc)).1
    have hne : c ≠ 'İ' := by
      intro he
      subst he
      exact absurd (h _ hcl) (by decide)
    unfold pyLowerChar
    rw [if_neg hne]
  rw [hmap]

/-- The ASCII normalization of an ASCII header is an ASCII string. -/
theorem snakeChars_ascii {l : List Char} (h : ∀ c ∈ l, c.toNat < 128) :
    ∀ c ∈ snakeChars l, c.toNat < 128 := by
  intro c hc
  obtain ⟨c0, hc0, he⟩ := mem_snakeChars hc
  have h0 : c0.toNat < 128 := h c0 ((List.mem_filter.mp (mem_pyStrip hc0)).1)
  have h1 : (Char.toLower c0).toNat < 128 := by
    rw [toNat_toLower]
    by_cases hu : 65 ≤ c0.toNat ∧ c0.toNat ≤ 90
    · rw [if_pos hu]
      omega
    · rw [if_neg hu]
      exact h0
  subst he
  unfold spaceToUnderscore
  by_cases hs : Char.toLower c0 = ' '
  · rw [if_pos hs]
    decide
  · rw [if_neg hs]
    exact h1

/-- C7 counterexample: the source's normalization is not idempotent over
all headers.  CPython's `str.lower()` expands U+0130 to i followed by the
combining dot above U+0307, and on a second pass `re.sub(r'[^\w\s]', '', c)`
deletes the combining mark (category Mn, not a word character), so
normalizing the already-normalized header drops a character. -/
theorem C7_unicode_idempotence_counterexample :
    snakeStrU "İ" = "i̇" ∧
    snakeStrU (snakeStrU "İ") = "i" ∧
    snakeStrU (snakeStrU "İ") ≠ snakeStrU "İ" := by
  refine ⟨by decide, by decide, by decide⟩

/-- C7 (amended): header normalization is deterministic (equal inputs give
equal outputs); and for every header all of whose characters are ASCII,
it is idempotent: normalizing the already-normalized result yields it
unchanged.  On ASCII code points the refined model is exactly the source's
normalization; beyond ASCII idempotence fails, see the counterexample. -/
theorem C7_deterministic_idempotent_on_ascii :
    (∀ s t : String, s = t → snakeStrU s = snakeStrU t) ∧
    (∀ s : String, (∀ c ∈ s.data, c.toNat < 128) →
      snakeStrU (snakeStrU s) = snakeStrU s) := by
  constructor
  · intro s t h
    rw [h]
  · intro s h
    have h1 : snakeCharsU s.data = snakeChars s.data := snakeCharsU_eq_snakeChars h
    have h2 : ∀ c ∈ snakeChars s.data, c.toNat < 128 := snakeChars_ascii h
    show (⟨snakeCharsU (snakeStrU s).data⟩ : String) = ⟨snakeCharsU s.data⟩
    have h3 : (snakeStrU s).data = snakeCharsU s.data := rfl
    rw [h3, h1, snakeCharsU_eq_snakeChars h2, snakeChars_idem]

/-- Witness for C7 (amended) at the spec's concrete ASCII header. -/
theorem C7_deterministic_idempotent_on_ascii_witness :
    snakeStrU "Facility Name #1" = snakeStrU "Facility Name #1" ∧
    snakeStrU (snakeStrU "Facility Name #1") = snakeStrU "Facility Name #1" :=
  ⟨C7_deterministic_idempotent_on_ascii.1 "Facility Name #1" "Facility Name #1" rfl,
   C7_deterministic_idempotent_on_ascii.2 "Facility Name #1" (by decide)⟩
